import Mathlib

/-!
Verification of the cryojax potential-to-projection core.

This file is a shallow embedding of the potential representation, Gaussian-mixture
rasterization, Fourier voxel grids, Fourier-cropping resampling, and the projection
method dispatch of the cryojax repository, together with proofs settling the claims
of the specification against it.

Machine floats are modelled by real numbers, JAX arrays by functions out of finite
index types, and eagerly-raised validation errors by `Option`-returning constructors.
The discrete Fourier transform along one axis is modelled by Mathlib's `ZMod.dft`,
whose convention (`∑ j, exp (-2 π I j k / n) • x j`, inverse normalized by `n⁻¹`)
matches the numpy/JAX `fft`/`ifft` convention used by the code.
-/

open Real Finset MeasureTheory

namespace Cryojax

/-- Squared Euclidean distance between two 3D points, as computed by
`jnp.sum((coords - pos) ** 2, axis=-1)` in the code. -/
def distSq (r p : Fin 3 → ℝ) : ℝ :=
  ∑ i, (r i - p i) ^ 2

/-- Modelled from the spec (section 4.2): the unit-amplitude Gaussian kernel of one
atom component, `(4π / b)^{3/2} · exp(-4π² |r - p|² / b)`, with `(4π/b)^{3/2}`
written as `(4π/b) · √(4π/b)`.  The source of `GaussianMixtureAtomicPotential` is
not under `src/`; only its tests are. -/
noncomputable def gaussianAtomKernel (b : ℝ) (p r : Fin 3 → ℝ) : ℝ :=
  (4 * π / b) * Real.sqrt (4 * π / b) * Real.exp (-(4 * π ^ 2) * distSq r p / b)

/-- Modelled from the spec (sections 4.2, 8.2, 8.6): the Gaussian-mixture potential
`V(r) = Σ_n Σ_k a n k · scale · (4π / b n k)^{3/2} · exp(-4π² |r - pos n|² / b n k)`.
The spec leaves the overall scale as a calibration target (section 9); `scale = 4π`
is the unique constant reproducing both the mass-conservation law 8.2
(`∫ V = Σ 4π a`) and the closed-form Fourier values of 8.6
(`Σ 4π a vs⁻³ exp(-b (q/2)²)` at frequency `q`). -/
noncomputable def gaussianMixturePotential {N K : ℕ} (pos : Fin N → Fin 3 → ℝ)
    (a b : Fin N → Fin K → ℝ) (r : Fin 3 → ℝ) : ℝ :=
  ∑ n, ∑ k, a n k * (4 * π) * gaussianAtomKernel (b n k) (pos n) r

/-- Modelled from the spec (section 4.2): `GaussianMixtureAtomicPotential.as_real_voxel_grid`
evaluates the Gaussian-mixture potential at every point of the coordinate grid
(the grid is indexed here in flattened form, as in the test's `reshape(-1, 3)`). -/
noncomputable def as_real_voxel_grid {N K M : ℕ} (pos : Fin N → Fin 3 → ℝ)
    (a b : Fin N → Fin K → ℝ) (grid : Fin M → Fin 3 → ℝ) : Fin M → ℝ :=
  fun i => gaussianMixturePotential pos a b (grid i)

/-- Modelled from the spec (section 5) and the test
`TestBuildVoxelsFromTrajectories.test_indexing_matches_individual_calls`:
`jax.vmap` of the rasterization over a leading batch axis of atom positions,
with coefficients and coordinate grid held fixed (`in_axes=[0, None, None, None]`).
The semantics of `vmap` is independent application to each batch element. -/
noncomputable def make_voxel_grids {B N K M : ℕ} (traj : Fin B → Fin N → Fin 3 → ℝ)
    (a b : Fin N → Fin K → ℝ) (grid : Fin M → Fin 3 → ℝ) : Fin B → Fin M → ℝ :=
  fun bi => as_real_voxel_grid (traj bi) a b grid

/-- The amplitude bump `ff_a.at[d].add(t)` used by the peak-localization test:
add `t` to every Gaussian component of atom `d`, leaving other atoms unchanged. -/
def addToAtomAmplitude {N K : ℕ} (a : Fin N → Fin K → ℝ) (d : Fin N) (t : ℝ) :
    Fin N → Fin K → ℝ :=
  fun n k => if n = d then a n k + t else a n k

/-- The discrete approximation to the volume integral of the rasterized grid,
`jnp.sum(real_voxel_grid) * voxel_size**3` as computed in
`TestBuildRealSpaceVoxelsFromAtoms.test_integral_is_correct`. -/
noncomputable def voxelGridIntegralApprox {N K M : ℕ} (pos : Fin N → Fin 3 → ℝ)
    (a b : Fin N → Fin K → ℝ) (grid : Fin M → Fin 3 → ℝ) (vs : ℝ) : ℝ :=
  (∑ i, as_real_voxel_grid pos a b grid i) * vs ^ 3

/-- The total coefficient mass `jnp.sum(4 * jnp.pi * ff_a)`, summed over all atoms
and Gaussian components. -/
noncomputable def totalCoefficientMass {N K : ℕ} (a : Fin N → Fin K → ℝ) : ℝ :=
  ∑ n, ∑ k, 4 * π * a n k

/-- Modelled from the spec (section 7): `cryojax.core.error_if_not_positive`, the
converter used by validated fields; its source is not under `src/`.  It raises
eagerly at construction on a non-positive value, modelled as `none`. -/
noncomputable def error_if_not_positive (x : ℝ) : Option ℝ :=
  if 0 < x then some x else none

/-- The `Gaussian2D` operator of `src/src/cryojax/image/operators/_real_operator.py`. -/
structure Gaussian2D where
  amplitude : ℝ
  b_factor : ℝ
  offset : Fin 2 → ℝ

/-- Construction of `Gaussian2D` (source lines 66-70): the `b_factor` field is
passed through the converter `error_if_not_positive`, so validation runs eagerly
at construction time. -/
noncomputable def Gaussian2D.make (amplitude b_factor : ℝ) (offset : Fin 2 → ℝ) :
    Option Gaussian2D :=
  (error_if_not_positive b_factor).map fun b => ⟨amplitude, b, offset⟩

/-- The body of `Gaussian2D.__call__` (source lines 72-78):
`(amplitude / sqrt(2 π b_factor)) * exp(-0.5 * r_sqr / b_factor)` where
`r_sqr = sum((coords - offset) ** 2, axis=-1)`. -/
noncomputable def Gaussian2D.call (g : Gaussian2D) (coords : Fin 2 → ℝ) : ℝ :=
  g.amplitude / Real.sqrt (2 * π * g.b_factor) *
    Real.exp (-(1 / 2) * (∑ i, (coords i - g.offset i) ^ 2) / g.b_factor)

/-- The formula stated in the `Gaussian2D` class docstring (source lines 57-64):
`g(r) = κ / (2 π β) · exp(-(r - r₀)² / (2 β))`.  Stated for comparison with
the value the code actually computes. -/
noncomputable def gaussian2D_docstring_formula (κ β : ℝ) (r₀ coords : Fin 2 → ℝ) : ℝ :=
  κ / (2 * π * β) * Real.exp (-(∑ i, (coords i - r₀ i) ^ 2) / (2 * β))

/-- The instrument configuration contract (spec section 6): `padded_shape` and a
positive `pixel_size` are the only fields the core reads. -/
structure InstrumentConfig where
  padded_y_dim : ℕ
  padded_x_dim : ℕ
  pixel_size : ℝ

/-- Modelled from the spec (section 7): constructing an `InstrumentConfig` validates
`pixel_size > 0` eagerly; the class source is not under `src/`. -/
noncomputable def InstrumentConfig.make (ydim xdim : ℕ) (ps : ℝ) : Option InstrumentConfig :=
  (error_if_not_positive ps).map fun p => ⟨ydim, xdim, p⟩

/-- A 2D complex array carrying its shape explicitly, standing for the
`Complex[Array, "..."]` values of the projection methods. -/
structure CImage where
  rows : ℕ
  cols : ℕ
  data : Fin rows → Fin cols → ℂ

/-- Scalar multiplication of a 2D complex array by a real number, as in
`potential.voxel_size * raw_fourier_projected_potential`. -/
noncomputable def smulImage (c : ℝ) (im : CImage) : CImage :=
  ⟨im.rows, im.cols, fun i j => (c : ℂ) * im.data i j⟩

/-- Modelled from the spec (section 4.4 generalized to 2D): Fourier-domain
cropping/padding of a half-space array to target dims, modelled as index
restriction with zero fill for the padded frequencies. -/
noncomputable def cropOrPad2D (im : CImage) (r c : ℕ) : CImage :=
  ⟨r, c, fun i j =>
    if h : (i : ℕ) < im.rows ∧ (j : ℕ) < im.cols then im.data ⟨i, h.1⟩ ⟨j, h.2⟩ else 0⟩

/-- Modelled from the spec (section 4.5 step 2): `rescale_pixel_size` on a
Fourier-space (`is_real=False`) 2D array resamples via Fourier-domain
cropping/padding to the half-space dims implied by `shape_in_real_space`. -/
noncomputable def rescale_pixel_size (im : CImage) (current target : ℝ)
    (shape_in_real_space : ℕ × ℕ) : CImage :=
  cropOrPad2D im shape_in_real_space.1 (shape_in_real_space.2 / 2 + 1)

/-- Modelled from the spec (section 4.5 step 2): `maybe_rescale_pixel_size` passes
the array through unchanged when the current pixel size equals the target, and
otherwise resamples via Fourier-domain cropping/padding.  Its source is not under
`src/`; only its call site in `projection_method.py` is. -/
noncomputable def maybe_rescale_pixel_size (im : CImage) (current target : ℝ)
    (shape_in_real_space : ℕ × ℕ) : CImage :=
  if current = target then im else rescale_pixel_size im current target shape_in_real_space

/-- `AbstractVoxelPotentialProjectionMethod` of
`src/src/cryojax/simulator/_projection_methods/projection_method.py`: an abstract
`compute_raw_fourier_projected_potential` (the representation-specific projection,
declared with output shape `padded_y_dim × (padded_x_dim//2 + 1)`), an abstract
`pixel_rescaling_method`, and an accessor for the potential's `voxel_size`. -/
structure AbstractVoxelPotentialProjectionMethod (P : Type) where
  pixel_rescaling_method : String
  voxel_size : P → ℝ
  compute_raw_fourier_projected_potential : P → InstrumentConfig → CImage

/-- `AbstractVoxelPotentialProjectionMethod.compute_fourier_projected_potential`
(source lines 59-74): compute the raw projection, scale it by the potential's
voxel size, and pass it to `maybe_rescale_pixel_size` with the config's pixel
size and padded shape. -/
noncomputable def compute_fourier_projected_potential {P : Type}
    (m : AbstractVoxelPotentialProjectionMethod P) (potential : P)
    (config : InstrumentConfig) : CImage :=
  maybe_rescale_pixel_size
    (smulImage (m.voxel_size potential)
      (m.compute_raw_fourier_projected_potential potential config))
    (m.voxel_size potential) config.pixel_size
    (config.padded_y_dim, config.padded_x_dim)

/-- Modelled from the spec: `jnp.fft.fftn` along axis 0 of a cubic grid, via
Mathlib's `ZMod.dft` (whose convention matches numpy's forward transform). -/
noncomputable def fftAxis0 {n : ℕ} [NeZero n] (x : ZMod n → ZMod n → ZMod n → ℂ) :
    ZMod n → ZMod n → ZMod n → ℂ :=
  fun k a b => ZMod.dft (fun j => x j a b) k

/-- Modelled from the spec: `jnp.fft.fftn` along axis 1 of a cubic grid. -/
noncomputable def fftAxis1 {n : ℕ} [NeZero n] (x : ZMod n → ZMod n → ZMod n → ℂ) :
    ZMod n → ZMod n → ZMod n → ℂ :=
  fun a k b => ZMod.dft (fun j => x a j b) k

/-- Modelled from the spec: `jnp.fft.fftn` along axis 2 of a cubic grid. -/
noncomputable def fftAxis2 {n : ℕ} [NeZero n] (x : ZMod n → ZMod n → ZMod n → ℂ) :
    ZMod n → ZMod n → ZMod n → ℂ :=
  fun a b k => ZMod.dft (fun j => x a b j) k

/-- Modelled from the spec: the normalized inverse transform along axis 0. -/
noncomputable def ifftAxis0 {n : ℕ} [NeZero n] (y : ZMod n → ZMod n → ZMod n → ℂ) :
    ZMod n → ZMod n → ZMod n → ℂ :=
  fun j a b => ZMod.dft.symm (fun k => y k a b) j

/-- Modelled from the spec: the normalized inverse transform along axis 1. -/
noncomputable def ifftAxis1 {n : ℕ} [NeZero n] (y : ZMod n → ZMod n → ZMod n → ℂ) :
    ZMod n → ZMod n → ZMod n → ℂ :=
  fun a j b => ZMod.dft.symm (fun k => y a k b) j

/-- Modelled from the spec: the normalized inverse transform along axis 2. -/
noncomputable def ifftAxis2 {n : ℕ} [NeZero n] (y : ZMod n → ZMod n → ZMod n → ℂ) :
    ZMod n → ZMod n → ZMod n → ℂ :=
  fun a b j => ZMod.dft.symm (fun k => y a b k) j

/-- Modelled from the spec (section 4.3): `cryojax.image.fftn`, the full 3D forward
transform, applied axis by axis. -/
noncomputable def fftn {n : ℕ} [NeZero n] (x : ZMod n → ZMod n → ZMod n → ℂ) :
    ZMod n → ZMod n → ZMod n → ℂ :=
  fftAxis0 (fftAxis1 (fftAxis2 x))

/-- Modelled from the spec (section 4.3): `cryojax.image.ifftn`, the full 3D
normalized inverse transform, applied axis by axis. -/
noncomputable def ifftn {n : ℕ} [NeZero n] (y : ZMod n → ZMod n → ZMod n → ℂ) :
    ZMod n → ZMod n → ZMod n → ℂ :=
  ifftAxis2 (ifftAxis1 (ifftAxis0 y))

/-- The index offset `n // 2` by which `fftshift`/`ifftshift` roll each axis. -/
def shiftCenter (n : ℕ) : ZMod n := ((n / 2 : ℕ) : ZMod n)

/-- Modelled from the spec: `jnp.fft.fftshift` on a cubic grid, `np.roll` by
`n // 2` along every axis, so that the zero frequency moves to the center. -/
def fftshift {n : ℕ} (x : ZMod n → ZMod n → ZMod n → ℂ) :
    ZMod n → ZMod n → ZMod n → ℂ :=
  fun a b c => x (a - shiftCenter n) (b - shiftCenter n) (c - shiftCenter n)

/-- Modelled from the spec: `jnp.fft.ifftshift` on a cubic grid, `np.roll` by
`-(n // 2)` along every axis, undoing `fftshift`. -/
def ifftshift {n : ℕ} (x : ZMod n → ZMod n → ZMod n → ℂ) :
    ZMod n → ZMod n → ZMod n → ℂ :=
  fun a b c => x (a + shiftCenter n) (b + shiftCenter n) (c + shiftCenter n)

/-- `RealVoxelGridPotential`: a real-space cubic voxel grid with its voxel size. -/
structure RealVoxelGridPotential (n : ℕ) where
  real_voxel_grid : ZMod n → ZMod n → ZMod n → ℝ
  voxel_size : ℝ

/-- Modelled from the spec (section 4.3): `RealVoxelGridPotential.from_real_voxel_grid`
wraps the grid directly, validating `voxel_size > 0` eagerly. -/
noncomputable def RealVoxelGridPotential.from_real_voxel_grid {n : ℕ}
    (g : ZMod n → ZMod n → ZMod n → ℝ) (vs : ℝ) : Option (RealVoxelGridPotential n) :=
  (error_if_not_positive vs).map fun v => ⟨g, v⟩

/-- `FourierVoxelGridPotential`: a full-cube Fourier-space voxel grid (zero
frequency centered) with the voxel size of the implied real-space grid. -/
structure FourierVoxelGridPotential (n : ℕ) where
  fourier_voxel_grid : ZMod n → ZMod n → ZMod n → ℂ
  voxel_size : ℝ

/-- Modelled from the spec (section 4.3): `FourierVoxelGridPotential.from_real_voxel_grid`
applies the forward Fourier transform, then `fftshift` so the zero frequency is
centered, and validates `voxel_size > 0` eagerly. -/
noncomputable def FourierVoxelGridPotential.from_real_voxel_grid {n : ℕ} [NeZero n]
    (g : ZMod n → ZMod n → ZMod n → ℝ) (vs : ℝ) : Option (FourierVoxelGridPotential n) :=
  (error_if_not_positive vs).map fun v =>
    ⟨fftshift (fftn (fun i j k => ((g i j k : ℝ) : ℂ))), v⟩

/-- The per-axis output size of `downsample_with_fourier_cropping`.  The function's
source is not under `src/`; the test `test_downsampled_voxel_potential_agreement`
(source lines 69-105) fixes its behavior by asserting that the output shape equals
a shape computed with Python `int(shape[i] / downsampling_factor)`, i.e. truncation
toward zero. -/
def downsampledShapeAxis (s : ℕ) (f : ℚ) : ℕ :=
  (⌊(s : ℚ) / f⌋).toNat

/-- The shape behavior of `downsample_with_fourier_cropping` on a 3D grid:
per-axis truncated division, independently on each axis. -/
def downsample_with_fourier_cropping_shape (shape : ℕ × ℕ × ℕ) (f : ℚ) : ℕ × ℕ × ℕ :=
  (downsampledShapeAxis shape.1 f, downsampledShapeAxis shape.2.1 f,
    downsampledShapeAxis shape.2.2 f)

/-- The per-axis output size the spec claims (sections 4.4, 8.3):
`round(input_shape_axis / downsampling_factor)`. -/
def specRoundShapeAxis (s : ℕ) (f : ℚ) : ℕ :=
  (round ((s : ℚ) / f)).toNat

/-- The spec's claimed downsampled shape on a 3D grid, rounding per axis. -/
def specRoundShape (shape : ℕ × ℕ × ℕ) (f : ℚ) : ℕ × ℕ × ℕ :=
  (specRoundShapeAxis shape.1 f, specRoundShapeAxis shape.2.1 f,
    specRoundShapeAxis shape.2.2 f)

/-- The expected downsampled shape exactly as the test
`test_downsampled_voxel_potential_agreement` computes it (source lines 74-78):
`(int(shape[0] / f), int(shape[1] / f), int(shape[2] / f))`; the grid built
directly at the downsampled voxel size has this shape. -/
def test_downsampled_shape (shape : ℕ × ℕ × ℕ) (f : ℚ) : ℕ × ℕ × ℕ :=
  ((⌊(shape.1 : ℚ) / f⌋).toNat, (⌊(shape.2.1 : ℚ) / f⌋).toNat,
    (⌊(shape.2.2 : ℚ) / f⌋).toNat)

/-- A concrete 1×1 complex image, used to instantiate witnesses. -/
def constImage : CImage := ⟨1, 1, fun _ _ => 0⟩

/-- A concrete projection method over a trivial potential type, used in witnesses. -/
noncomputable def demoMethod : AbstractVoxelPotentialProjectionMethod Unit :=
  ⟨"fourier", fun _ => 1, fun _ _ => constImage⟩

/-- A concrete instrument configuration, used in witnesses. -/
def demoConfig : InstrumentConfig := ⟨1, 1, 1⟩

/-- The all-zero real voxel grid on a 1³ cube, used in witnesses. -/
def gZero : ZMod 1 → ZMod 1 → ZMod 1 → ℝ := fun _ _ _ => 0

/-- The Fourier voxel grid potential built from `gZero` at voxel size 1. -/
noncomputable def fvgpZero : FourierVoxelGridPotential 1 :=
  ⟨fftshift (fftn fun i j k => ((gZero i j k : ℝ) : ℂ)), 1⟩

/-- A two-frame batch of atom positions whose frame 0 is the origin, used in
witnesses. -/
def trajA : Fin 2 → Fin 1 → Fin 3 → ℝ := fun _ _ _ => 0

/-- A second two-frame batch agreeing with `trajA` at frame 0 only. -/
def trajB : Fin 2 → Fin 1 → Fin 3 → ℝ := fun bi _ _ => if bi = 0 then 0 else 1

/-- Constant scattering-factor coefficients for one atom and one component. -/
def coefOne : Fin 1 → Fin 1 → ℝ := fun _ _ => 1

/-- A one-point coordinate grid at the origin, used in witnesses. -/
def gridOne : Fin 1 → Fin 3 → ℝ := fun _ _ => 0

/-- A single atom position at the origin, used in witnesses. -/
def posOne : Fin 1 → Fin 3 → ℝ := fun _ _ => 0

/-- A two-point coordinate grid with points `(0,0,0)` and `(1,1,1)`, used in
witnesses. -/
def gridTwo : Fin 2 → Fin 3 → ℝ := fun i _ => if i = 0 then 0 else 1

end Cryojax

namespace Cryojax

/-- C10: `Gaussian2D.__call__` returns
`amplitude / √(2 π b_factor) · exp(-|coords - offset|² / (2 b_factor))` at each
coordinate: the normalization divides by the square root of `2 π b_factor`, not
by `2 π b_factor` as the class docstring's formula states — witnessed by the two
formulas disagreeing at amplitude 1, `b_factor` 1, offset 0, coords 0. -/
theorem gaussian2D_call_formula (g : Gaussian2D) (coords : Fin 2 → ℝ) :
    g.call coords =
      g.amplitude / Real.sqrt (2 * π * g.b_factor) *
        Real.exp (-(∑ i, (coords i - g.offset i) ^ 2) / (2 * g.b_factor)) ∧
    Gaussian2D.call ⟨1, 1, fun _ => 0⟩ (fun _ => 0) ≠
      gaussian2D_docstring_formula 1 1 (fun _ => 0) (fun _ => 0) := by
  constructor
  · unfold Gaussian2D.call
    congr 1
    congr 1
    ring
  · have hπ := Real.pi_gt_three
    have h0 : (0 : ℝ) < 2 * π := by linarith
    have hs : Real.sqrt (2 * π) < 2 * π := (Real.sqrt_lt' h0).mpr (by nlinarith)
    have hspos : 0 < Real.sqrt (2 * π) := Real.sqrt_pos.mpr h0
    have hL : Gaussian2D.call ⟨1, 1, fun _ => 0⟩ (fun _ => 0) = 1 / Real.sqrt (2 * π) := by
      unfold Gaussian2D.call
      norm_num
    have hR : gaussian2D_docstring_formula 1 1 (fun _ => 0) (fun _ => 0) = 1 / (2 * π) := by
      unfold gaussian2D_docstring_formula
      norm_num
    rw [hL, hR]
    exact (one_div_lt_one_div_of_lt hspos hs).ne'

/-- C9: `Gaussian2D` with non-positive `b_factor`, a real voxel grid potential
with non-positive `voxel_size`, and an `InstrumentConfig` with non-positive
`pixel_size` all fail eagerly at construction; successfully constructed instances
carry positive parameters — in particular a constructed `Gaussian2D` has
`b_factor > 0`, so the compute-time normalization `√(2 π b_factor)` is positive
and evaluation never raises. -/
theorem validation_eager_at_construction {n : ℕ} (amp bf ps vs : ℝ) (off : Fin 2 → ℝ)
    (ydim xdim : ℕ) (grid : ZMod n → ZMod n → ZMod n → ℝ) :
    (bf ≤ 0 → Gaussian2D.make amp bf off = none) ∧
    (∀ g, Gaussian2D.make amp bf off = some g →
      0 < g.b_factor ∧ 0 < Real.sqrt (2 * π * g.b_factor)) ∧
    (vs ≤ 0 → RealVoxelGridPotential.from_real_voxel_grid grid vs = none) ∧
    (∀ p, RealVoxelGridPotential.from_real_voxel_grid grid vs = some p →
      0 < p.voxel_size) ∧
    (ps ≤ 0 → InstrumentConfig.make ydim xdim ps = none) ∧
    (∀ c, InstrumentConfig.make ydim xdim ps = some c → 0 < c.pixel_size) := by
  refine ⟨fun h => ?_, fun g hg => ?_, fun h => ?_, fun p hp => ?_, fun h => ?_,
    fun c hc => ?_⟩
  · simp [Gaussian2D.make, error_if_not_positive, not_lt.mpr h]
  · unfold Gaussian2D.make error_if_not_positive at hg
    split_ifs at hg with hb
    · simp only [Option.map_some', Option.some.injEq] at hg
      subst hg
      exact ⟨hb, Real.sqrt_pos.mpr (mul_pos (by positivity) hb)⟩
    · simp at hg
  · simp [RealVoxelGridPotential.from_real_voxel_grid, error_if_not_positive, not_lt.mpr h]
  · unfold RealVoxelGridPotential.from_real_voxel_grid error_if_not_positive at hp
    split_ifs at hp with hv
    · simp only [Option.map_some', Option.some.injEq] at hp
      subst hp
      exact hv
    · simp at hp
  · simp [InstrumentConfig.make, error_if_not_positive, not_lt.mpr h]
  · unfold InstrumentConfig.make error_if_not_positive at hc
    split_ifs at hc with hpix
    · simp only [Option.map_some', Option.some.injEq] at hc
      subst hc
      exact hpix
    · simp at hc

/-- Witness for C9 at concrete non-positive and positive parameters. -/
theorem validation_eager_at_construction_witness :
    Gaussian2D.make 1 (-1) (fun _ => 0) = none ∧
    (∀ g, Gaussian2D.make 1 1 (fun _ => 0) = some g → 0 < g.b_factor) ∧
    InstrumentConfig.make 1 1 (-1) = none := by
  refine ⟨?_, fun g hg => ?_, ?_⟩
  · exact (validation_eager_at_construction 1 (-1) (-1) (-1) (fun _ => 0) 1 1 gZero).1
      (by norm_num)
  · exact ((validation_eager_at_construction 1 1 (-1) (-1) (fun _ => 0) 1 1 gZero).2.1
      g hg).1
  · exact (validation_eager_at_construction 1 1 (-1) (-1) (fun _ => 0) 1 1
      gZero).2.2.2.2.1 (by norm_num)

/-- C4: the projection dispatch computes the raw projection at the potential's
native voxel size, scales it by `voxel_size`, and hands the result to
`maybe_rescale_pixel_size` at the config's pixel size and padded shape; when the
voxel size equals the pixel size, the scaled raw projection passes through
unchanged. -/
theorem compute_fourier_projected_potential_rescaling {P : Type}
    (m : AbstractVoxelPotentialProjectionMethod P) (p : P) (config : InstrumentConfig) :
    compute_fourier_projected_potential m p config =
      maybe_rescale_pixel_size
        (smulImage (m.voxel_size p) (m.compute_raw_fourier_projected_potential p config))
        (m.voxel_size p) config.pixel_size
        (config.padded_y_dim, config.padded_x_dim) ∧
    (m.voxel_size p = config.pixel_size →
      compute_fourier_projected_potential m p config =
        smulImage (m.voxel_size p)
          (m.compute_raw_fourier_projected_potential p config)) := by
  refine ⟨rfl, fun h => ?_⟩
  unfold compute_fourier_projected_potential maybe_rescale_pixel_size
  rw [if_pos h]

/-- Witness for C4 at a concrete method and configuration with equal sizes. -/
theorem compute_fourier_projected_potential_rescaling_witness :
    compute_fourier_projected_potential demoMethod () demoConfig =
      smulImage (demoMethod.voxel_size ())
        (demoMethod.compute_raw_fourier_projected_potential () demoConfig) :=
  (compute_fourier_projected_potential_rescaling demoMethod () demoConfig).2 rfl

/-- C5: vectorized rasterization over a leading batch of atom-position sets
equals the stack of the individual single-call rasterizations, and batch elements
do not contaminate each other: the result at batch index `bi` depends only on the
positions of frame `bi`. -/
theorem batched_rasterization_matches_individual {B N K M : ℕ}
    (traj traj' : Fin B → Fin N → Fin 3 → ℝ) (a b : Fin N → Fin K → ℝ)
    (grid : Fin M → Fin 3 → ℝ) (bi : Fin B) :
    make_voxel_grids traj a b grid bi = as_real_voxel_grid (traj bi) a b grid ∧
    (traj bi = traj' bi →
      make_voxel_grids traj a b grid bi = make_voxel_grids traj' a b grid bi) := by
  refine ⟨rfl, fun h => ?_⟩
  unfold make_voxel_grids
  rw [h]

/-- Witness for C5 at concrete two-frame trajectories agreeing at frame 0. -/
theorem batched_rasterization_matches_individual_witness :
    make_voxel_grids trajA coefOne coefOne gridOne 0 =
      as_real_voxel_grid (trajA 0) coefOne coefOne gridOne ∧
    make_voxel_grids trajA coefOne coefOne gridOne 0 =
      make_voxel_grids trajB coefOne coefOne gridOne 0 :=
  ⟨(batched_rasterization_matches_individual trajA trajB coefOne coefOne gridOne 0).1,
    (batched_rasterization_matches_individual trajA trajB coefOne coefOne gridOne 0).2
      (by funext x y; simp [trajA, trajB])⟩

/-- Counterexample for C3: at the test's own parameters — shape 64 per axis,
downsampling factor 1.05 = 21/20 — the downsampled size per axis is
`int(64 / 1.05) = 60`, while the spec's `round(64 / 1.05)` is 61. -/
theorem downsample_shape_round_counterexample :
    downsample_with_fourier_cropping_shape (64, 64, 64) (21 / 20) ≠
      specRoundShape (64, 64, 64) (21 / 20) := by
  have h1 : downsampledShapeAxis 64 (21 / 20) = 60 := by
    unfold downsampledShapeAxis
    norm_num
    decide
  have h2 : specRoundShapeAxis 64 (21 / 20) = 61 := by
    unfold specRoundShapeAxis
    rw [round_eq]
    norm_num
    decide
  simp only [downsample_with_fourier_cropping_shape, specRoundShape, h1, h2]
  simp

/-- C3 amended: for every shape and downsampling factor `f > 1`, the output shape
of `downsample_with_fourier_cropping` per axis is the truncation `int(s / f)`
(not `round(s / f)`), which is exactly the shape of the grid the test builds
directly at voxel size `v·f`. -/
theorem downsample_shape_truncation (shape : ℕ × ℕ × ℕ) (f : ℚ) (hf : 1 < f) :
    downsample_with_fourier_cropping_shape shape f = test_downsampled_shape shape f :=
  rfl

/-- Inverting the axis-0 transform recovers the grid, by Fourier inversion. -/
theorem ifftAxis0_fftAxis0 {n : ℕ} [NeZero n] (x : ZMod n → ZMod n → ZMod n → ℂ) :
    ifftAxis0 (fftAxis0 x) = x := by
  funext j a b
  exact congrFun (LinearEquiv.symm_apply_apply ZMod.dft (fun i => x i a b)) j

/-- Inverting the axis-1 transform recovers the grid. -/
theorem ifftAxis1_fftAxis1 {n : ℕ} [NeZero n] (x : ZMod n → ZMod n → ZMod n → ℂ) :
    ifftAxis1 (fftAxis1 x) = x := by
  funext a j b
  exact congrFun (LinearEquiv.symm_apply_apply ZMod.dft (fun i => x a i b)) j

/-- Inverting the axis-2 transform recovers the grid. -/
theorem ifftAxis2_fftAxis2 {n : ℕ} [NeZero n] (x : ZMod n → ZMod n → ZMod n → ℂ) :
    ifftAxis2 (fftAxis2 x) = x := by
  funext a b j
  exact congrFun (LinearEquiv.symm_apply_apply ZMod.dft (fun i => x a b i)) j

/-- The frequency un-shift undoes the frequency shift on every axis. -/
theorem ifftshift_fftshift {n : ℕ} (x : ZMod n → ZMod n → ZMod n → ℂ) :
    ifftshift (fftshift x) = x := by
  funext a b c
  simp [ifftshift, fftshift]

/-- C1: for every real 3D grid and positive voxel size, applying the inverse
Fourier transform after the matching frequency un-shift to the grid stored by
`FourierVoxelGridPotential.from_real_voxel_grid` reproduces the original real
grid; over the reals the 1e-12-tolerance round-trip law holds as exact
equality. -/
theorem fourier_from_real_voxel_grid_round_trip {n : ℕ} [NeZero n]
    (g : ZMod n → ZMod n → ZMod n → ℝ) (vs : ℝ) (hvs : 0 < vs)
    (P : FourierVoxelGridPotential n)
    (hP : FourierVoxelGridPotential.from_real_voxel_grid g vs = some P) :
    ifftn (ifftshift P.fourier_voxel_grid) = fun i j k => ((g i j k : ℝ) : ℂ) := by
  unfold FourierVoxelGridPotential.from_real_voxel_grid error_if_not_positive at hP
  rw [if_pos hvs] at hP
  simp only [Option.map_some', Option.some.injEq] at hP
  subst hP
  show ifftn (ifftshift (fftshift (fftn fun i j k => ((g i j k : ℝ) : ℂ)))) = _
  rw [ifftshift_fftshift]
  show ifftAxis2 (ifftAxis1 (ifftAxis0 (fftAxis0 (fftAxis1 (fftAxis2 _))))) = _
  rw [ifftAxis0_fftAxis0, ifftAxis1_fftAxis1, ifftAxis2_fftAxis2]

/-- Witness for C1 at the all-zero 1³ grid with voxel size 1. -/
theorem fourier_from_real_voxel_grid_round_trip_witness :
    ifftn (ifftshift fvgpZero.fourier_voxel_grid) =
      fun i j k => ((gZero i j k : ℝ) : ℂ) :=
  fourier_from_real_voxel_grid_round_trip gZero 1 (by norm_num) fvgpZero (by
    unfold FourierVoxelGridPotential.from_real_voxel_grid error_if_not_positive fvgpZero
    rw [if_pos (by norm_num : (0 : ℝ) < 1)]
    rfl)

/-- The forward 3D transform at the zero frequency is the total sum of the grid. -/
theorem fftn_apply_zero {n : ℕ} [NeZero n] (x : ZMod n → ZMod n → ZMod n → ℂ) :
    fftn x 0 0 0 = ∑ i, ∑ j, ∑ k, x i j k := by
  show ZMod.dft (fun i => fftAxis1 (fftAxis2 x) i 0 0) 0 = _
  rw [ZMod.dft_apply_zero]
  refine Finset.sum_congr rfl fun i _ => ?_
  show ZMod.dft (fun j => fftAxis2 x i j 0) 0 = _
  rw [ZMod.dft_apply_zero]
  refine Finset.sum_congr rfl fun j _ => ?_
  show ZMod.dft (fun k => x i j k) 0 = _
  rw [ZMod.dft_apply_zero]

/-- C8: the 2D Fourier projected potential is a half-space Hermitian-layout
array of shape `padded_y_dim × (padded_x_dim / 2 + 1)` — given the declared
shape contract of the raw projection — while the 3D Fourier voxel grid is
stored as a full cube over the same index set as the real grid, with the
zero-frequency (DC) component, the total sum of the real grid, at the centered
index `n / 2` of every axis. -/
theorem projected_potential_layout {P : Type}
    (m : AbstractVoxelPotentialProjectionMethod P) (p : P) (config : InstrumentConfig)
    (hrows : (m.compute_raw_fourier_projected_potential p config).rows =
      config.padded_y_dim)
    (hcols : (m.compute_raw_fourier_projected_potential p config).cols =
      config.padded_x_dim / 2 + 1)
    {n : ℕ} [NeZero n] (g : ZMod n → ZMod n → ZMod n → ℝ) (vs : ℝ)
    (F : FourierVoxelGridPotential n)
    (hF : FourierVoxelGridPotential.from_real_voxel_grid g vs = some F) :
    (compute_fourier_projected_potential m p config).rows = config.padded_y_dim ∧
    (compute_fourier_projected_potential m p config).cols =
      config.padded_x_dim / 2 + 1 ∧
    F.fourier_voxel_grid (shiftCenter n) (shiftCenter n) (shiftCenter n) =
      ∑ i, ∑ j, ∑ k, ((g i j k : ℝ) : ℂ) := by
  refine ⟨?_, ?_, ?_⟩
  · unfold compute_fourier_projected_potential maybe_rescale_pixel_size
    split_ifs with h
    · simpa [smulImage] using hrows
    · rfl
  · unfold compute_fourier_projected_potential maybe_rescale_pixel_size
    split_ifs with h
    · simpa [smulImage] using hcols
    · rfl
  · unfold FourierVoxelGridPotential.from_real_voxel_grid error_if_not_positive at hF
    split_ifs at hF with hv
    · simp only [Option.map_some', Option.some.injEq] at hF
      subst hF
      show fftshift (fftn fun i j k => ((g i j k : ℝ) : ℂ)) _ _ _ = _
      unfold fftshift
      rw [sub_self]
      exact fftn_apply_zero _
    · simp at hF

/-- Witness for C8 at a concrete method, configuration, and 1³ grid. -/
theorem projected_potential_layout_witness :
    (compute_fourier_projected_potential demoMethod () demoConfig).rows =
      demoConfig.padded_y_dim ∧
    (compute_fourier_projected_potential demoMethod () demoConfig).cols =
      demoConfig.padded_x_dim / 2 + 1 ∧
    fvgpZero.fourier_voxel_grid (shiftCenter 1) (shiftCenter 1) (shiftCenter 1) =
      ∑ i, ∑ j, ∑ k, ((gZero i j k : ℝ) : ℂ) :=
  projected_potential_layout demoMethod () demoConfig rfl rfl gZero 1 fvgpZero (by
    unfold FourierVoxelGridPotential.from_real_voxel_grid error_if_not_positive fvgpZero
    rw [if_pos (by norm_num : (0 : ℝ) < 1)]
    rfl)

/-- A single-atom Gaussian kernel is strictly positive. -/
theorem gaussianAtomKernel_pos {b : ℝ} (hb : 0 < b) (p r : Fin 3 → ℝ) :
    0 < gaussianAtomKernel b p r := by
  unfold gaussianAtomKernel
  have h1 : 0 < 4 * π / b := by positivity
  positivity

/-- A single-atom Gaussian kernel strictly decreases with squared distance from
the atom position. -/
theorem gaussianAtomKernel_lt {b : ℝ} (hb : 0 < b) (p r₁ r₂ : Fin 3 → ℝ)
    (h : distSq r₁ p < distSq r₂ p) :
    gaussianAtomKernel b p r₂ < gaussianAtomKernel b p r₁ := by
  unfold gaussianAtomKernel
  have hc : 0 < 4 * π / b := by positivity
  refine mul_lt_mul_of_pos_left ?_ (by positivity)
  apply Real.exp_lt_exp.mpr
  have h4 : 0 < 4 * π ^ 2 / b := by positivity
  have key := mul_lt_mul_of_pos_left h h4
  have e₁ : -(4 * π ^ 2) * distSq r₂ p / b = -(4 * π ^ 2 / b * distSq r₂ p) := by ring
  have e₂ : -(4 * π ^ 2) * distSq r₁ p / b = -(4 * π ^ 2 / b * distSq r₁ p) := by ring
  rw [e₁, e₂]
  exact neg_lt_neg key

/-- Adding `t` to every Gaussian component amplitude of atom `d` shifts the
rasterized potential by `t` times the unit-amplitude kernel sum of atom `d`. -/
theorem gaussianMixturePotential_addToAtomAmplitude {N K : ℕ}
    (pos : Fin N → Fin 3 → ℝ) (a b : Fin N → Fin K → ℝ) (d : Fin N) (t : ℝ)
    (r : Fin 3 → ℝ) :
    gaussianMixturePotential pos (addToAtomAmplitude a d t) b r =
      gaussianMixturePotential pos a b r +
        t * ∑ k, 4 * π * gaussianAtomKernel (b d k) (pos d) r := by
  unfold gaussianMixturePotential addToAtomAmplitude
  have expand : ∀ n k,
      (if n = d then a n k + t else a n k) * (4 * π) *
          gaussianAtomKernel (b n k) (pos n) r =
        a n k * (4 * π) * gaussianAtomKernel (b n k) (pos n) r +
          (if n = d then t * (4 * π * gaussianAtomKernel (b n k) (pos n) r) else 0) := by
    intro n k
    split_ifs with h
    · ring
    · ring
  simp only [expand, Finset.sum_add_distrib]
  have inner : ∀ n : Fin N,
      (∑ k, if n = d then t * (4 * π * gaussianAtomKernel (b n k) (pos n) r) else 0) =
        if n = d then ∑ k, t * (4 * π * gaussianAtomKernel (b n k) (pos n) r) else 0 := by
    intro n
    split_ifs with h
    · rfl
    · exact Finset.sum_const_zero
  simp only [inner]
  simp [Finset.mul_sum]

/-- The unit-amplitude kernel sum of an atom is strictly larger at a strictly
nearer evaluation point, for a nonempty mixture of positive widths. -/
theorem dominantKernelSum_lt {K : ℕ} (hK : 0 < K) (b : Fin K → ℝ)
    (hb : ∀ k, 0 < b k) (p r₁ r₂ : Fin 3 → ℝ) (h : distSq r₁ p < distSq r₂ p) :
    ∑ k, 4 * π * gaussianAtomKernel (b k) p r₂ <
      ∑ k, 4 * π * gaussianAtomKernel (b k) p r₁ := by
  apply Finset.sum_lt_sum_of_nonempty
  · exact Finset.univ_nonempty_iff.mpr (Fin.pos_iff_nonempty.mp hK)
  · intro k _
    exact mul_lt_mul_of_pos_left (gaussianAtomKernel_lt (hb k) p r₁ r₂ h) (by positivity)

/-- C6: for a positive-width Gaussian mixture, once atom `d`'s amplitude is
boosted enough (there is a dominance threshold `t₀`), the rasterized grid is
strictly maximized at the grid point strictly nearest atom `d`'s declared
position, for every choice of dominant atom `d`. -/
theorem peak_localization_dominant_atom {M N K : ℕ} (grid : Fin M → Fin 3 → ℝ)
    (pos : Fin N → Fin 3 → ℝ) (a b : Fin N → Fin K → ℝ)
    (hb : ∀ n k, 0 < b n k) (hK : 0 < K) (d : Fin N) (q : Fin M)
    (hq : ∀ i, i ≠ q → distSq (grid q) (pos d) < distSq (grid i) (pos d)) :
    ∃ t₀ : ℝ, ∀ t, t₀ ≤ t → ∀ i, i ≠ q →
      as_real_voxel_grid pos (addToAtomAmplitude a d t) b grid i <
        as_real_voxel_grid pos (addToAtomAmplitude a d t) b grid q := by
  obtain ⟨t₀, ht₀⟩ := Finset.exists_le
    (Finset.univ.image fun i : Fin M =>
      (gaussianMixturePotential pos a b (grid i) -
          gaussianMixturePotential pos a b (grid q)) /
        ((∑ k, 4 * π * gaussianAtomKernel (b d k) (pos d) (grid q)) -
          ∑ k, 4 * π * gaussianAtomKernel (b d k) (pos d) (grid i)) + 1)
  refine ⟨t₀, fun t ht i hi => ?_⟩
  have hδ : 0 < (∑ k, 4 * π * gaussianAtomKernel (b d k) (pos d) (grid q)) -
      ∑ k, 4 * π * gaussianAtomKernel (b d k) (pos d) (grid i) :=
    sub_pos.mpr (dominantKernelSum_lt hK (b d) (hb d) (pos d) (grid q) (grid i) (hq i hi))
  have hfi := ht₀ _ (Finset.mem_image_of_mem _ (Finset.mem_univ i))
  have htf : (gaussianMixturePotential pos a b (grid i) -
        gaussianMixturePotential pos a b (grid q)) /
      ((∑ k, 4 * π * gaussianAtomKernel (b d k) (pos d) (grid q)) -
        ∑ k, 4 * π * gaussianAtomKernel (b d k) (pos d) (grid i)) < t := by
    linarith
  rw [div_lt_iff₀ hδ] at htf
  show gaussianMixturePotential pos (addToAtomAmplitude a d t) b (grid i) <
    gaussianMixturePotential pos (addToAtomAmplitude a d t) b (grid q)
  rw [gaussianMixturePotential_addToAtomAmplitude,
    gaussianMixturePotential_addToAtomAmplitude]
  nlinarith [htf]

/-- Witness for C6: a two-point grid with a single atom at the origin, where
grid point 0 is strictly nearest the atom. -/
theorem peak_localization_dominant_atom_witness :
    ∃ t₀ : ℝ, ∀ t, t₀ ≤ t → ∀ i, i ≠ (0 : Fin 2) →
      as_real_voxel_grid posOne (addToAtomAmplitude coefOne 0 t) coefOne gridTwo i <
        as_real_voxel_grid posOne (addToAtomAmplitude coefOne 0 t) coefOne gridTwo 0 :=
  peak_localization_dominant_atom gridTwo posOne coefOne coefOne
    (fun _ _ => by norm_num [coefOne]) (by norm_num) 0 0
    (by
      intro i hi
      fin_cases i
      · exact absurd rfl hi
      · simp [distSq, gridTwo, posOne, Fin.sum_univ_three])

/-- Counterexample for C2: the discrete sum `Σ grid · vs³` does not equal
`Σ 4π a` for every atomic potential and coordinate grid.  At a one-point
coordinate grid placed on a single atom with `a = 1`, `b = π` and voxel size 1,
the discrete sum is `32π` while `Σ 4π a = 4π`. -/
theorem mass_conservation_discrete_counterexample :
    voxelGridIntegralApprox posOne coefOne (fun _ _ => π) gridOne 1 ≠
      totalCoefficientMass coefOne := by
  have hπ : (0 : ℝ) < π := Real.pi_pos
  have h4 : 4 * π / π = 4 := by field_simp
  have hsqrt : Real.sqrt 4 = 2 := by
    rw [show (4 : ℝ) = 2 ^ 2 by norm_num, Real.sqrt_sq (by norm_num : (0 : ℝ) ≤ 2)]
  unfold voxelGridIntegralApprox as_real_voxel_grid gaussianMixturePotential
    gaussianAtomKernel distSq totalCoefficientMass
  simp only [Fin.sum_univ_one, Fin.sum_univ_three, posOne, coefOne, gridOne, sub_self,
    ne_eq, one_pow, mul_one, one_mul]
  rw [show (0 : ℝ) ^ 2 + 0 ^ 2 + 0 ^ 2 = 0 by norm_num,
    show -(4 * π ^ 2) * 0 / π = 0 by ring, Real.exp_zero, h4, hsqrt]
  intro hEq
  nlinarith [hπ, hEq]

/-- The integral of a single shifted Gaussian, by translation invariance. -/
theorem integral_gaussian_shift (c p : ℝ) :
    (∫ t : ℝ, Real.exp (-c * (t - p) ^ 2)) = Real.sqrt (π / c) := by
  rw [integral_sub_right_eq_self (fun t => Real.exp (-c * t ^ 2)) p]
  exact integral_gaussian c

/-- The integral of a finite sum of scaled, shifted Gaussians. -/
theorem integral_sum_gaussian {ι : Type*} [Fintype ι] (r c : ι → ℝ) (hc : ∀ i, 0 < c i)
    (p : ι → ℝ) :
    (∫ t : ℝ, ∑ i, r i * Real.exp (-c i * (t - p i) ^ 2)) =
      ∑ i, r i * Real.sqrt (π / c i) := by
  rw [integral_finset_sum]
  · exact Finset.sum_congr rfl fun i _ => by rw [integral_mul_left, integral_gaussian_shift]
  · intro i _
    exact ((integrable_exp_neg_mul_sq (hc i)).comp_sub_right (p i)).const_mul (r i)

/-- The iterated triple integral of a finite sum of separable 3D Gaussians. -/
theorem triple_integral_sum {ι : Type*} [Fintype ι] (r c : ι → ℝ) (hc : ∀ i, 0 < c i)
    (px py pz : ι → ℝ) :
    (∫ x : ℝ, ∫ y : ℝ, ∫ z : ℝ, ∑ i,
        r i * Real.exp (-c i * (x - px i) ^ 2) * Real.exp (-c i * (y - py i) ^ 2) *
          Real.exp (-c i * (z - pz i) ^ 2)) =
      ∑ i, r i * Real.sqrt (π / c i) ^ 3 := by
  have hz : ∀ x y : ℝ,
      (∫ z : ℝ, ∑ i,
          r i * Real.exp (-c i * (x - px i) ^ 2) * Real.exp (-c i * (y - py i) ^ 2) *
            Real.exp (-c i * (z - pz i) ^ 2)) =
        ∑ i, r i * Real.exp (-c i * (x - px i) ^ 2) * Real.exp (-c i * (y - py i) ^ 2) *
          Real.sqrt (π / c i) := fun x y =>
    integral_sum_gaussian
      (fun i => r i * Real.exp (-c i * (x - px i) ^ 2) * Real.exp (-c i * (y - py i) ^ 2))
      c hc pz
  simp only [hz]
  have hry : ∀ x y : ℝ,
      (∑ i, r i * Real.exp (-c i * (x - px i) ^ 2) * Real.exp (-c i * (y - py i) ^ 2) *
          Real.sqrt (π / c i)) =
        ∑ i, r i * Real.exp (-c i * (x - px i) ^ 2) * Real.sqrt (π / c i) *
          Real.exp (-c i * (y - py i) ^ 2) := fun x y =>
    Finset.sum_congr rfl fun i _ => by ring
  simp only [hry]
  have hy : ∀ x : ℝ,
      (∫ y : ℝ, ∑ i, r i * Real.exp (-c i * (x - px i) ^ 2) * Real.sqrt (π / c i) *
          Real.exp (-c i * (y - py i) ^ 2)) =
        ∑ i, r i * Real.exp (-c i * (x - px i) ^ 2) * Real.sqrt (π / c i) *
          Real.sqrt (π / c i) := fun x =>
    integral_sum_gaussian
      (fun i => r i * Real.exp (-c i * (x - px i) ^ 2) * Real.sqrt (π / c i)) c hc py
  simp only [hy]
  have hrx : ∀ x : ℝ,
      (∑ i, r i * Real.exp (-c i * (x - px i) ^ 2) * Real.sqrt (π / c i) *
          Real.sqrt (π / c i)) =
        ∑ i, r i * Real.sqrt (π / c i) * Real.sqrt (π / c i) *
          Real.exp (-c i * (x - px i) ^ 2) := fun x =>
    Finset.sum_congr rfl fun i _ => by ring
  simp only [hrx]
  rw [integral_sum_gaussian (fun i => r i * Real.sqrt (π / c i) * Real.sqrt (π / c i))
    c hc px]
  exact Finset.sum_congr rfl fun i _ => by ring

/-- The Gaussian kernel of one atom separates into a product of per-axis
Gaussians. -/
theorem gaussianAtomKernel_separate (b : ℝ) (p : Fin 3 → ℝ) (x y z : ℝ) :
    gaussianAtomKernel b p ![x, y, z] =
      (4 * π / b) * Real.sqrt (4 * π / b) *
        (Real.exp (-(4 * π ^ 2 / b) * (x - p 0) ^ 2) *
          Real.exp (-(4 * π ^ 2 / b) * (y - p 1) ^ 2) *
          Real.exp (-(4 * π ^ 2 / b) * (z - p 2) ^ 2)) := by
  unfold gaussianAtomKernel distSq
  rw [Fin.sum_univ_three]
  rw [← Real.exp_add, ← Real.exp_add]
  have hv0 : (![x, y, z] : Fin 3 → ℝ) 0 = x := rfl
  have hv1 : (![x, y, z] : Fin 3 → ℝ) 1 = y := rfl
  have hv2 : (![x, y, z] : Fin 3 → ℝ) 2 = z := rfl
  rw [hv0, hv1, hv2]
  congr 1
  rw [Real.exp_eq_exp]
  ring

/-- C2 amended: mass conservation holds for the continuous volume integral — the
integral of the Gaussian-mixture potential over all of ℝ³ equals
`Σ_atoms Σ_components 4π a`.  The discrete Riemann sum `Σ grid · vs³` only
approximates this and differs from it for coarse or misplaced grids. -/
theorem mass_conservation_continuous_integral {N K : ℕ} (pos : Fin N → Fin 3 → ℝ)
    (a b : Fin N → Fin K → ℝ) (hb : ∀ n k, 0 < b n k) :
    (∫ x : ℝ, ∫ y : ℝ, ∫ z : ℝ, gaussianMixturePotential pos a b ![x, y, z]) =
      totalCoefficientMass a := by
  have hsep : ∀ x y z : ℝ, gaussianMixturePotential pos a b ![x, y, z] =
      ∑ q : Fin N × Fin K,
        a q.1 q.2 * (4 * π) * (4 * π / b q.1 q.2) * Real.sqrt (4 * π / b q.1 q.2) *
          Real.exp (-(4 * π ^ 2 / b q.1 q.2) * (x - pos q.1 0) ^ 2) *
          Real.exp (-(4 * π ^ 2 / b q.1 q.2) * (y - pos q.1 1) ^ 2) *
          Real.exp (-(4 * π ^ 2 / b q.1 q.2) * (z - pos q.1 2) ^ 2) := by
    intro x y z
    unfold gaussianMixturePotential
    rw [Fintype.sum_prod_type]
    refine Finset.sum_congr rfl fun n _ => Finset.sum_congr rfl fun k _ => ?_
    rw [gaussianAtomKernel_separate]
    ring
  simp only [hsep]
  refine (triple_integral_sum
    (fun q : Fin N × Fin K =>
      a q.1 q.2 * (4 * π) * (4 * π / b q.1 q.2) * Real.sqrt (4 * π / b q.1 q.2))
    (fun q => 4 * π ^ 2 / b q.1 q.2)
    (fun q => by have := hb q.1 q.2; positivity)
    (fun q => pos q.1 0) (fun q => pos q.1 1) (fun q => pos q.1 2)).trans ?_
  unfold totalCoefficientMass
  rw [Fintype.sum_prod_type]
  refine Finset.sum_congr rfl fun n _ => Finset.sum_congr rfl fun k _ => ?_
  have hbnk := hb n k
  have hu : (0 : ℝ) < 4 * π / b n k := by positivity
  have hp2 : (4 * π ^ 2 : ℝ) ≠ 0 := by positivity
  have hp1 : (4 * π : ℝ) ≠ 0 := by positivity
  have he : π / (4 * π ^ 2 / b n k) = b n k / (4 * π) := by
    rw [div_div_eq_mul_div, div_eq_div_iff hp2 hp1]
    ring
  rw [he]
  have huv : 4 * π / b n k * (b n k / (4 * π)) = 1 := by
    field_simp
  have hvnonneg : (0 : ℝ) ≤ b n k / (4 * π) := by positivity
  have hcube : Real.sqrt (b n k / (4 * π)) ^ 3 =
      b n k / (4 * π) * Real.sqrt (b n k / (4 * π)) := by
    rw [pow_succ, Real.sq_sqrt hvnonneg]
  have hsqrtuv : Real.sqrt (4 * π / b n k) * Real.sqrt (b n k / (4 * π)) = 1 := by
    rw [← Real.sqrt_mul hu.le, huv, Real.sqrt_one]
  rw [hcube]
  have hrearrange :
      a n k * (4 * π) * (4 * π / b n k) * Real.sqrt (4 * π / b n k) *
          (b n k / (4 * π) * Real.sqrt (b n k / (4 * π))) =
        a n k * (4 * π) * (4 * π / b n k * (b n k / (4 * π))) *
          (Real.sqrt (4 * π / b n k) * Real.sqrt (b n k / (4 * π))) := by
    ring
  rw [hrearrange, huv, hsqrtuv]
  ring

/-- Witness for C2's amended theorem at a single unit-coefficient atom. -/
theorem mass_conservation_continuous_integral_witness :
    (∫ x : ℝ, ∫ y : ℝ, ∫ z : ℝ,
        gaussianMixturePotential posOne coefOne coefOne ![x, y, z]) =
      totalCoefficientMass coefOne :=
  mass_conservation_continuous_integral posOne coefOne coefOne
    (fun _ _ => by norm_num [coefOne])

/-- Witness for C3 at the test's shape and factor. -/
theorem downsample_shape_truncation_witness :
    downsample_with_fourier_cropping_shape (64, 64, 64) (21 / 20) =
      test_downsampled_shape (64, 64, 64) (21 / 20) :=
  downsample_shape_truncation (64, 64, 64) (21 / 20) (by norm_num)

end Cryojax
